import Mathlib

/-!
Verification of the shuffleDeck core engine: a shallow embedding of
`src/utils/deckUtils.ts`, `src/utils/statisticsUtils.ts` and
`src/types/shuffle.ts` into Lean, together with theorems settling the
specification claims about the shuffle algorithms, the step recorder and
applicator, the randomness estimator and the statistics aggregator.

Modelling conventions:
* JS numbers that only ever hold integers are modelled as `Nat`/`Int`;
  fractional JS arithmetic is modelled exactly over `ℚ` (the float rounding
  of IEEE doubles is idealised away, as the spec itself does);
  `Math.round` is `jsRound q = ⌊q + 1/2⌋` (round half towards +∞).
* `Math.random()` is modelled as a stream `r : ℕ → ℚ` of draws, consumed
  left to right; a real random source satisfies `validRand r`
  (every draw lies in `[0, 1)`).
* The entropy estimator calls `Math.log2`, so its score is modelled in `ℝ`;
  the `new Array(maxDifference + 1)` RangeError it raises when
  `differences` is empty (`Math.max()` = -Infinity) is modelled by an
  `Option` result, `none` being the thrown exception.
-/

namespace ShuffleDeck

/-- The `Card` interface of `src/types/card.ts`: a stable `id`, a suit and a
rank, plus the mutable `position` and `isHighlighted` presentation fields. -/
structure Card where
  id : String
  suit : String
  rank : String
  position : Nat
  isHighlighted : Bool
deriving DecidableEq

/-- The `action` union type `'swap' | 'move' | 'split' | 'merge'` of
`ShuffleStep` in `src/types/shuffle.ts`. -/
inductive StepAction where
  | swap
  | move
  | split
  | merge
deriving DecidableEq

/-- The `ShuffleStep` interface of `src/types/shuffle.ts` (the
TransformationRecord of the spec). -/
structure ShuffleStep where
  description : String
  cardIndices : List Nat
  action : StepAction
  fromPositions : List Nat
  toPositions : List Nat
deriving DecidableEq

/-- A random source: the stream of values produced by successive
`Math.random()` calls. -/
abbrev Rand := Nat → ℚ

/-- A real `Math.random()` source: every draw lies in `[0, 1)`. -/
def validRand (r : Rand) : Prop := ∀ n, 0 ≤ r n ∧ r n < 1

/-- `Math.round` on a (nonnegative) JS number: round half towards plus
infinity. -/
def jsRound (q : ℚ) : ℤ := ⌊q + 1 / 2⌋

/-- `Math.floor(r * m)` for the draw `r`, as used to pick a random index in
`[0, m-1]`. (`.toNat` is harmless: the result is nonnegative whenever
`0 ≤ r`.) -/
def randInt (r : Rand) (k : Nat) (m : Nat) : Nat :=
  (⌊r k * m⌋).toNat

/-- The JS destructuring swap
`[a[i], a[j]] = [a[j], a[i]]` on an array, for in-range indices.
When an index is out of range the model leaves the list unchanged
(JS would instead grow a sparse array; no algorithm reaches that case
under a valid random source). -/
def listSwap {α : Type} (l : List α) (i j : Nat) : List α :=
  match l[i]?, l[j]? with
  | some a, some b => (l.set i b).set j a
  | _, _ => l

/-- The trailing `.map((card, index) => ({...card, position: index,
isHighlighted: false}))` of the bulk shuffle functions, with the running
index made explicit. -/
def renumberFrom : Nat → List Card → List Card
  | _, [] => []
  | i, c :: t => { c with position := i, isHighlighted := false } :: renumberFrom (i + 1) t

/-- Renumber `position` to the current index and clear all highlights. -/
def renumber (deck : List Card) : List Card := renumberFrom 0 deck

/-- The trailing `.map((card, index) => ({...card, position: index,
isHighlighted: step.cardIndices.includes(index)}))` of `applyShuffleStep`. -/
def restampFrom (idxs : List Nat) : Nat → List Card → List Card
  | _, [] => []
  | i, c :: t =>
      { c with position := i, isHighlighted := decide (i ∈ idxs) } :: restampFrom idxs (i + 1) t

/-! ### Fisher-Yates shuffle (`fisherYatesShuffle`, `fisherYatesShuffleSteps`) -/

/-- The Fisher-Yates loop of `fisherYatesShuffle`:
`for (let i = length - 1; i > 0; i--) swap(i, Math.floor(Math.random()*(i+1)))`;
`k` is the number of `Math.random()` calls already made. -/
def fyLoop (r : Rand) : Nat → Nat → List Card → List Card
  | _, 0, l => l
  | k, i + 1, l => fyLoop r (k + 1) i (listSwap l (i + 1) (randInt r k (i + 2)))

/-- `fisherYatesShuffle` of `src/utils/deckUtils.ts`. -/
def fisherYatesShuffle (deck : List Card) (r : Rand) : List Card :=
  renumber (fyLoop r 0 (deck.length - 1) deck)

/-- The same Fisher-Yates loop at the level of the integer draws
`j = Math.floor(Math.random()*(i+1))` themselves: the map from a trace of
draws to the reordered sequence. -/
def fyLoopT {α : Type} : Nat → List Nat → List α → List α
  | 0, _, l => l
  | _ + 1, [], l => l
  | i + 1, j :: t, l => fyLoopT i t (listSwap l (i + 1) j)

/-- The integer draws `Math.floor(Math.random()*(i+1))` made by the
Fisher-Yates loop for `i = n, n-1, ..., 1`, starting at call counter `k`. -/
def jTrace (r : Rand) : Nat → Nat → List Nat
  | _, 0 => []
  | k, i + 1 => randInt r k (i + 2) :: jTrace r (k + 1) i

/-- A trace of integer draws is one the Fisher-Yates loop on a sequence of
`n` elements can produce from a real random source: `n - 1` entries, the
`k`-th lying in `[0, n-1-k]`. -/
def validTrace : Nat → List Nat → Bool
  | 0, [] => true
  | 1, [] => true
  | n + 2, j :: t => j ≤ n + 1 && validTrace (n + 1) t
  | _, _ => false

/-- The loop of `fisherYatesShuffleSteps`: records one swap `ShuffleStep`
per iteration while performing the same swaps on a working copy. -/
def fyStepsLoop (r : Rand) : Nat → Nat → Nat → List Card → List ShuffleStep
  | _, _, 0, _ => []
  | k, stepNum, i + 1, l =>
      let j := randInt r k (i + 2)
      { description := "Step " ++ toString stepNum ++ ": Swap card at position "
          ++ toString (i + 1) ++ " with card at position " ++ toString j
        cardIndices := [i + 1, j]
        action := StepAction.swap
        fromPositions := [i + 1, j]
        toPositions := [j, i + 1] }
        :: fyStepsLoop r (k + 1) (stepNum + 1) i (listSwap l (i + 1) j)

/-- `fisherYatesShuffleSteps` of `src/utils/deckUtils.ts`. -/
def fisherYatesShuffleSteps (deck : List Card) (r : Rand) : List ShuffleStep :=
  fyStepsLoop r 0 1 (deck.length - 1) deck

/-! ### Step applicator (`applyShuffleStep`) -/

/-- `applyShuffleStep` of `src/utils/deckUtils.ts`: a `swap` step with
exactly two indices exchanges the two elements; every other step leaves the
order unchanged (the code comment calls the `move` branch a simplified
version that only highlights); then positions are renumbered to the current
index and exactly the cards at `step.cardIndices` are highlighted. -/
def applyShuffleStep (deck : List Card) (step : ShuffleStep) : List Card :=
  let newDeck :=
    match step.action, step.cardIndices with
    | StepAction.swap, [index1, index2] => listSwap deck index1 index2
    | _, _ => deck
  restampFrom step.cardIndices 0 newDeck

/-! ### Riffle shuffle (`riffleShuffle`, `riffleShuffleSteps`) -/

/-- The interleaving loop of `riffleShuffle`. `Math.random()` is consumed
only when both halves still have cards (JS `&&`/`||` short-circuiting in
`takeFromLeft`); a draw `< 0.5` takes from the left half. -/
def riffleLoop (r : Rand) : Nat → List Card → List Card → List Card
  | _, [], [] => []
  | k, [], b :: right => b :: riffleLoop r k [] right
  | k, a :: left, [] => a :: riffleLoop r k left []
  | k, a :: left, b :: right =>
      if r k < 1 / 2 then a :: riffleLoop r (k + 1) left (b :: right)
      else b :: riffleLoop r (k + 1) (a :: left) right
termination_by _ left right => left.length + right.length

/-- The split point of the riffle: `midPoint + (Math.floor(random*3) - 1)`,
clamped into `[1, length-1]` by `Math.max(1, Math.min(length-1, _))`. -/
def riffleSplitPoint (n : Nat) (draw : ℚ) : Nat :=
  (max 1 (min ((n : Int) - 1) ((n / 2 : Nat) + (⌊draw * 3⌋ - 1)))).toNat

/-- `riffleShuffle` of `src/utils/deckUtils.ts`. -/
def riffleShuffle (deck : List Card) (r : Rand) : List Card :=
  let splitPoint := riffleSplitPoint deck.length (r 0)
  let leftHalf := deck.take splitPoint
  let rightHalf := deck.drop splitPoint
  renumber (riffleLoop r 1 leftHalf rightHalf)

/-- The interleaving loop of `riffleShuffleSteps`: same control flow as
`riffleLoop`, recording one `move` record per card taken. The counters are
the running `leftIndex`, `rightIndex`, `result.length` and `stepCount` of
the source. -/
def riffleStepsLoop (r : Rand) (splitPoint : Nat) :
    Nat → Nat → Nat → Nat → Nat → List Card → List Card → List ShuffleStep
  | _, _, _, _, _, [], [] => []
  | k, stepCount, leftIndex, rightIndex, resultLen, [], _ :: right =>
      { description := "Step " ++ toString stepCount
          ++ ": Take card from right half (position " ++ toString rightIndex
          ++ " in right half)"
        cardIndices := [splitPoint + rightIndex]
        action := StepAction.move
        fromPositions := [splitPoint + rightIndex]
        toPositions := [resultLen] }
        :: riffleStepsLoop r splitPoint k (stepCount + 1) leftIndex (rightIndex + 1)
            (resultLen + 1) [] right
  | k, stepCount, leftIndex, rightIndex, resultLen, _ :: left, [] =>
      { description := "Step " ++ toString stepCount
          ++ ": Take card from left half (position " ++ toString leftIndex
          ++ " in left half)"
        cardIndices := [leftIndex]
        action := StepAction.move
        fromPositions := [leftIndex]
        toPositions := [resultLen] }
        :: riffleStepsLoop r splitPoint k (stepCount + 1) (leftIndex + 1) rightIndex
            (resultLen + 1) left []
  | k, stepCount, leftIndex, rightIndex, resultLen, a :: left, b :: right =>
      if r k < 1 / 2 then
        { description := "Step " ++ toString stepCount
            ++ ": Take card from left half (position " ++ toString leftIndex
            ++ " in left half)"
          cardIndices := [leftIndex]
          action := StepAction.move
          fromPositions := [leftIndex]
          toPositions := [resultLen] }
          :: riffleStepsLoop r splitPoint (k + 1) (stepCount + 1) (leftIndex + 1) rightIndex
              (resultLen + 1) left (b :: right)
      else
        { description := "Step " ++ toString stepCount
            ++ ": Take card from right half (position " ++ toString rightIndex
            ++ " in right half)"
          cardIndices := [splitPoint + rightIndex]
          action := StepAction.move
          fromPositions := [splitPoint + rightIndex]
          toPositions := [resultLen] }
          :: riffleStepsLoop r splitPoint (k + 1) (stepCount + 1) leftIndex (rightIndex + 1)
              (resultLen + 1) (a :: left) right
termination_by _ _ _ _ _ left right => left.length + right.length

/-- `riffleShuffleSteps` of `src/utils/deckUtils.ts`: one `split` record
covering all indices, then the interleaving records. -/
def riffleShuffleSteps (deck : List Card) (r : Rand) : List ShuffleStep :=
  let splitPoint := riffleSplitPoint deck.length (r 0)
  let leftHalf := deck.take splitPoint
  let rightHalf := deck.drop splitPoint
  { description := "Step 1: Split deck at position " ++ toString splitPoint
      ++ " (" ++ toString leftHalf.length ++ " cards left, "
      ++ toString rightHalf.length ++ " cards right)"
    cardIndices := List.range deck.length
    action := StepAction.split
    fromPositions := List.range deck.length
    toPositions := List.range deck.length }
    :: riffleStepsLoop r splitPoint 1 2 0 0 0 leftHalf rightHalf

/-! ### Overhand shuffle (`overhandShuffle`, `overhandShuffleSteps`) -/

/-- The loop of `overhandShuffle`: take `min(length, ⌊random*7⌋+1)` cards
from the top of the working pile and prepend them (via `unshift`) to the
result. The fuel argument bounds the iteration count; `deck.length` units
always suffice for a valid random source (each group is nonempty), and on
an invalid draw (`groupSize = 0`) the JS loop would never terminate. -/
def overhandLoop (r : Rand) : Nat → Nat → List Card → List Card → List Card
  | _, _, [], result => result
  | 0, _, _ :: _, result => result
  | fuel + 1, k, w :: ws, result =>
      let working := w :: ws
      let groupSize := min working.length ((⌊r k * 7⌋ + 1).toNat)
      overhandLoop r fuel (k + 1) (working.drop groupSize)
        (working.take groupSize ++ result)

/-- `overhandShuffle` of `src/utils/deckUtils.ts`. -/
def overhandShuffle (deck : List Card) (r : Rand) : List Card :=
  renumber (overhandLoop r deck.length 0 deck [])

/-- The loop of `overhandShuffleSteps`: same group sizes, one `move` record
per group. -/
def overhandStepsLoop (r : Rand) : Nat → Nat → Nat → Nat → List Card → List ShuffleStep
  | _, _, _, _, [] => []
  | 0, _, _, _, _ :: _ => []
  | fuel + 1, k, stepCount, resultLen, w :: ws =>
      let working := w :: ws
      let groupSize := min working.length ((⌊r k * 7⌋ + 1).toNat)
      { description := "Step " ++ toString stepCount ++ ": Take "
          ++ toString groupSize ++ " card" ++ (if groupSize > 1 then "s" else "")
          ++ " from top and place on bottom"
        cardIndices := List.range groupSize
        action := StepAction.move
        fromPositions := List.range groupSize
        toPositions := List.range' resultLen groupSize }
        :: overhandStepsLoop r fuel (k + 1) (stepCount + 1) (resultLen + groupSize)
            (working.drop groupSize)

/-- `overhandShuffleSteps` of `src/utils/deckUtils.ts`. -/
def overhandShuffleSteps (deck : List Card) (r : Rand) : List ShuffleStep :=
  overhandStepsLoop r deck.length 0 1 0 deck

/-! ### Hindu shuffle (`hinduShuffle`, `hinduShuffleSteps`) -/

/-- The loop of `hinduShuffle`: pull `min(length, ⌊random*6⌋+1)` cards from
the bottom (`splice(-packetSize, packetSize)`) and append them
(`result.push(...packet)`) to the result. Fuel as in `overhandLoop`. -/
def hinduLoop (r : Rand) : Nat → Nat → List Card → List Card → List Card
  | _, _, [], result => result
  | 0, _, _ :: _, result => result
  | fuel + 1, k, w :: ws, result =>
      let working := w :: ws
      let packetSize := min working.length ((⌊r k * 6⌋ + 1).toNat)
      hinduLoop r fuel (k + 1) (working.take (working.length - packetSize))
        (result ++ working.drop (working.length - packetSize))

/-- `hinduShuffle` of `src/utils/deckUtils.ts`. -/
def hinduShuffle (deck : List Card) (r : Rand) : List Card :=
  renumber (hinduLoop r deck.length 0 deck [])

/-- The loop of `hinduShuffleSteps`: same packet sizes, one `move` record
per packet, whose indices are the trailing indices of the working pile. -/
def hinduStepsLoop (r : Rand) : Nat → Nat → Nat → Nat → List Card → List ShuffleStep
  | _, _, _, _, [] => []
  | 0, _, _, _, _ :: _ => []
  | fuel + 1, k, stepCount, resultLen, w :: ws =>
      let working := w :: ws
      let packetSize := min working.length ((⌊r k * 6⌋ + 1).toNat)
      { description := "Step " ++ toString stepCount ++ ": Pull "
          ++ toString packetSize ++ " card" ++ (if packetSize > 1 then "s" else "")
          ++ " from bottom and drop on top"
        cardIndices := List.range' (working.length - packetSize) packetSize
        action := StepAction.move
        fromPositions := List.range' (working.length - packetSize) packetSize
        toPositions := List.range' resultLen packetSize }
        :: hinduStepsLoop r fuel (k + 1) (stepCount + 1) (resultLen + packetSize)
            (working.take (working.length - packetSize))

/-- `hinduShuffleSteps` of `src/utils/deckUtils.ts`. -/
def hinduShuffleSteps (deck : List Card) (r : Rand) : List ShuffleStep :=
  hinduStepsLoop r deck.length 0 1 0 deck

/-! ### Algorithm registry (`SHUFFLE_ALGORITHMS`, `getAlgorithmByName`) -/

/-- The `ShuffleAlgorithm` interface of `src/types/shuffle.ts`. -/
structure ShuffleAlgorithm where
  name : String
  description : String
  timeComplexity : String
  steps : List ShuffleStep
  execute : List Card → Rand → List ShuffleStep

/-- The `SHUFFLE_ALGORITHMS` registry of `src/utils/deckUtils.ts`
(descriptions abridged to their opening sentence). -/
def SHUFFLE_ALGORITHMS : List ShuffleAlgorithm :=
  [ { name := "Fisher-Yates"
      description := "Modern unbiased shuffle algorithm that produces a uniformly random permutation."
      timeComplexity := "O(n)"
      steps := []
      execute := fisherYatesShuffleSteps }
  , { name := "Riffle Shuffle"
      description := "Simulates the physical riffle shuffle used in card games."
      timeComplexity := "O(n)"
      steps := []
      execute := riffleShuffleSteps }
  , { name := "Overhand Shuffle"
      description := "Common casual shuffling method where small groups of cards are taken from the top of the deck and placed on the bottom."
      timeComplexity := "O(n²) for full randomization"
      steps := []
      execute := overhandShuffleSteps }
  , { name := "Hindu Shuffle"
      description := "Traditional shuffle method from South Asia where small packets of cards are pulled from the bottom of the deck and dropped on top."
      timeComplexity := "O(n²) for full randomization"
      steps := []
      execute := hinduShuffleSteps } ]

/-- `getAlgorithmByName` of `src/utils/deckUtils.ts`: `Array.prototype.find`
returns `undefined` (here `none`) when no algorithm matches. -/
def getAlgorithmByName (name : String) : Option ShuffleAlgorithm :=
  SHUFFLE_ALGORITHMS.find? (fun algo => algo.name == name)

/-! ### Randomness estimator (`calculateRandomnessMetrics`, `calculateEntropy`) -/

/-- `shuffledDeck.findIndex(card => card.id === originalCard.id)`:
the first index whose card has the given id, `-1` when absent. -/
def findIndexId (s : List Card) (id : String) : ℤ :=
  match s.findIdx? (fun card => card.id == id) with
  | some k => (k : ℤ)
  | none => -1

/-- The accumulation loop of `calculateRandomnessMetrics`: for each index
`i` of the original deck, find the card in the shuffled deck and, when
displaced, count it and add `Math.abs(shuffledPosition - i)`.
Returns `(displacedCards, totalDisplacement)`. -/
def metricsLoop (s : List Card) : Nat → List Card → Nat × Nat
  | _, [] => (0, 0)
  | i, c :: t =>
      let p := findIndexId s c.id
      let rest := metricsLoop s (i + 1) t
      if p ≠ (i : ℤ) then (rest.1 + 1, rest.2 + (p - (i : ℤ)).natAbs) else rest

/-- `calculateRandomnessMetrics` of `src/utils/statisticsUtils.ts`.
Mismatched lengths return 0 before any arithmetic. (On two empty decks the
JS code computes `0/0 = NaN` and returns `NaN`; the exact model returns 0
there; no theorem below depends on that case.) -/
def calculateRandomnessMetrics (originalDeck shuffledDeck : List Card) : ℤ :=
  if originalDeck.length = shuffledDeck.length then
    let counts := metricsLoop shuffledDeck 0 originalDeck
    let displacementRatio : ℚ := (counts.1 : ℚ) / (originalDeck.length : ℚ)
    let averageDisplacement : ℚ := (counts.2 : ℚ) / (originalDeck.length : ℚ)
    let normalizedDisplacement : ℚ :=
      min (averageDisplacement / ((originalDeck.length : ℚ) / 2)) 1
    jsRound ((displacementRatio * (6 / 10) + normalizedDisplacement * (4 / 10)) * 100)
  else 0

/-- The `positions` map of `calculateEntropy` followed by
`positions.get(card.id) || 0`: `Map.set` keeps the last index of each id,
and a missing id (or position `0`, which `||` cannot distinguish) gives 0. -/
def posOf (s : List Card) (id : String) : Nat :=
  match (List.zip (List.range s.length) s).reverse.find? (fun p => p.2.id == id) with
  | some p => p.1
  | none => 0

/-- The `differences` array of `calculateEntropy`:
`Math.abs(newPosition - originalIndex)` for each card of the original deck,
the running original index made explicit. -/
def diffsFrom (s : List Card) : Nat → List Card → List Nat
  | _, [] => []
  | i, c :: t => ((posOf s c.id : ℤ) - (i : ℤ)).natAbs :: diffsFrom s (i + 1) t

/-- `calculateEntropy` of `src/utils/statisticsUtils.ts`. On an empty
original deck `Math.max(...differences)` is `-Infinity` and
`new Array(-Infinity + 1)` throws a RangeError: that is the `none` case.
Otherwise the Shannon entropy (in bits) of the histogram of displacement
magnitudes is normalised by `log2(bucketCount)` and scaled to 0-100. -/
noncomputable def calculateEntropy (originalDeck shuffledDeck : List Card) : Option ℝ :=
  let differences := diffsFrom shuffledDeck 0 originalDeck
  match differences.max? with
  | none => none
  | some maxDifference =>
      if maxDifference = 0 then some 0
      else
        let buckets := (List.range (maxDifference + 1)).map
          (fun d => differences.count d)
        let total := differences.length
        let entropy : ℝ := (buckets.map (fun (count : Nat) =>
          if 0 < count then
            -(((count : ℝ) / (total : ℝ)) * Real.logb 2 ((count : ℝ) / (total : ℝ)))
          else 0)).sum
        let maxEntropy : ℝ := Real.logb 2 (buckets.length : ℝ)
        some (if 0 < maxEntropy then entropy / maxEntropy * 100 else 0)

/-! ### Statistics aggregator (`updateAlgorithmStatistics` and friends) -/

/-- The `ShuffleStatistics` interface of `src/types/shuffle.ts`.
`averageSteps` and `randomnessScore` are always outputs of `Math.round`,
hence integers. -/
structure ShuffleStatistics where
  algorithmName : String
  shuffleCount : Nat
  averageSteps : ℤ
  randomnessScore : ℤ
  executionTimes : List ℚ
deriving DecidableEq

/-- `initializeAlgorithmStatistics` of `src/utils/statisticsUtils.ts`. -/
def initializeAlgorithmStatistics (algorithmName : String) : ShuffleStatistics :=
  { algorithmName := algorithmName
    shuffleCount := 0
    averageSteps := 0
    randomnessScore := 0
    executionTimes := [] }

/-- `updateAlgorithmStatistics` of `src/utils/statisticsUtils.ts`: bumps the
count, appends the execution time and recomputes both running averages from
the previous (already rounded) average. -/
def updateAlgorithmStatistics (currentStats : ShuffleStatistics)
    (originalDeck shuffledDeck : List Card) (executionTime : ℚ) (stepCount : Nat) :
    ShuffleStatistics :=
  let randomnessScore := calculateRandomnessMetrics originalDeck shuffledDeck
  let newShuffleCount := currentStats.shuffleCount + 1
  let newExecutionTimes := currentStats.executionTimes ++ [executionTime]
  let totalSteps : ℚ :=
    (currentStats.averageSteps : ℚ) * (currentStats.shuffleCount : ℚ) + (stepCount : ℚ)
  let newAverageSteps := jsRound (totalSteps / (newShuffleCount : ℚ))
  { currentStats with
    shuffleCount := newShuffleCount
    averageSteps := newAverageSteps
    randomnessScore := jsRound
      (((currentStats.randomnessScore : ℚ) * (currentStats.shuffleCount : ℚ)
          + (randomnessScore : ℚ)) / (newShuffleCount : ℚ))
    executionTimes := newExecutionTimes }

/-- `getAverageExecutionTime` of `src/utils/statisticsUtils.ts`. -/
def getAverageExecutionTime (stats : ShuffleStatistics) : ℤ :=
  if stats.executionTimes.length = 0 then 0
  else jsRound (stats.executionTimes.sum / (stats.executionTimes.length : ℚ))

/-- One `{algorithm1, algorithm2, winner}` block of the object returned by
`compareAlgorithms`. -/
structure MetricComparison where
  algorithm1Name : String
  algorithm1Value : ℤ
  algorithm2Name : String
  algorithm2Value : ℤ
  winner : String
deriving DecidableEq

/-- The record returned by `compareAlgorithms`. -/
structure AlgorithmComparison where
  randomnessComparison : MetricComparison
  speedComparison : MetricComparison
  stepComparison : MetricComparison
deriving DecidableEq

/-- `compareAlgorithms` of `src/utils/statisticsUtils.ts`: strict
comparisons (`>` for randomness, `<` for time and steps) pick the winner,
so equality always names `stats2`. -/
def compareAlgorithms (stats1 stats2 : ShuffleStatistics) : AlgorithmComparison :=
  { randomnessComparison :=
      { algorithm1Name := stats1.algorithmName
        algorithm1Value := stats1.randomnessScore
        algorithm2Name := stats2.algorithmName
        algorithm2Value := stats2.randomnessScore
        winner := if stats1.randomnessScore > stats2.randomnessScore
          then stats1.algorithmName else stats2.algorithmName }
    speedComparison :=
      { algorithm1Name := stats1.algorithmName
        algorithm1Value := getAverageExecutionTime stats1
        algorithm2Name := stats2.algorithmName
        algorithm2Value := getAverageExecutionTime stats2
        winner := if getAverageExecutionTime stats1 < getAverageExecutionTime stats2
          then stats1.algorithmName else stats2.algorithmName }
    stepComparison :=
      { algorithm1Name := stats1.algorithmName
        algorithm1Value := stats1.averageSteps
        algorithm2Name := stats2.algorithmName
        algorithm2Value := stats2.averageSteps
        winner := if stats1.averageSteps < stats2.averageSteps
          then stats1.algorithmName else stats2.algorithmName } }

/-! ### Basic facts about `listSwap`, `renumber` and `restampFrom` -/

theorem listSwap_length {α : Type} (l : List α) (i j : Nat) :
    (listSwap l i j).length = l.length := by
  unfold listSwap
  split <;> simp

theorem listSwap_comm {α : Type} (l : List α) (i j : Nat) :
    listSwap l i j = listSwap l j i := by
  by_cases hij : i = j
  · subst hij; rfl
  · unfold listSwap
    cases hi : l[i]? <;> cases hj : l[j]? <;> simp [hi, hj]
    exact List.set_comm _ _ _ hij

theorem get_cons_set_perm {α : Type} :
    ∀ (l : List α) (m : Nat) (a : α) (h : m < l.length),
      List.Perm (l[m] :: l.set m a) (a :: l)
  | b :: t, 0, a, _ => by
      simpa using List.Perm.swap a b t
  | b :: t, m + 1, a, h => by
      have hm : m < t.length := by simpa using h
      have ih := get_cons_set_perm t m a hm
      simp only [List.getElem_cons_succ, List.set_cons_succ]
      refine List.Perm.trans (List.Perm.swap b t[m] (t.set m a)) ?_
      refine List.Perm.trans (ih.cons b) ?_
      exact List.Perm.swap a b t

theorem listSwap_zero_succ_perm {α : Type} (x : α) (t : List α) (m : Nat) :
    List.Perm (listSwap (x :: t) 0 (m + 1)) (x :: t) := by
  unfold listSwap
  cases hm : t[m]? with
  | none => simp [hm]
  | some b =>
      obtain ⟨hlt, hb⟩ := List.getElem?_eq_some.mp hm
      simp only [List.getElem?_cons_zero, List.getElem?_cons_succ, hm,
        List.set_cons_zero, List.set_cons_succ]
      subst hb
      exact get_cons_set_perm t m x hlt

theorem listSwap_perm {α : Type} : ∀ (l : List α) (i j : Nat),
    List.Perm (listSwap l i j) l
  | [], i, j => by simp [listSwap]
  | x :: t, 0, 0 => by simp [listSwap]
  | x :: t, 0, m + 1 => listSwap_zero_succ_perm x t m
  | x :: t, n + 1, 0 => by
      rw [listSwap_comm]; exact listSwap_zero_succ_perm x t n
  | x :: t, n + 1, m + 1 => by
      unfold listSwap
      cases hn : t[n]? with
      | none => simp [hn]
      | some a =>
          cases hm : t[m]? with
          | none => simp [hn, hm]
          | some b =>
              simp only [List.getElem?_cons_succ, hn, hm,
                List.set_cons_succ]
              have ih := listSwap_perm t n m
              rw [listSwap] at ih
              simp only [hn, hm] at ih
              exact ih.cons x

theorem listSwap_getElem? {α : Type} (l : List α) (i j k : Nat)
    (hi : i < l.length) (hj : j < l.length) :
    (listSwap l i j)[k]? =
      if k = i then l[j]? else if k = j then l[i]? else l[k]? := by
  unfold listSwap
  rw [List.getElem?_eq_getElem hi, List.getElem?_eq_getElem hj]
  show ((l.set i l[j]).set j l[i])[k]? = _
  by_cases h1 : k = i
  · subst h1
    by_cases h2 : k = j
    · subst h2
      simp [List.getElem?_set, hi]
    · rw [if_pos rfl, List.getElem?_set, if_neg (fun h => h2 h.symm),
        List.getElem?_set, if_pos rfl, if_pos hi]
  · by_cases h2 : k = j
    · subst h2
      rw [if_neg h1, if_pos rfl, List.getElem?_set, if_pos rfl,
        List.length_set, if_pos hj]
    · rw [if_neg h1, if_neg h2, List.getElem?_set, if_neg (fun h => h2 h.symm),
        List.getElem?_set, if_neg (fun h => h1 h.symm)]

theorem listSwap_append {α : Type} (l₁ l₂ : List α) (i j : Nat)
    (hi : i < l₁.length) (hj : j < l₁.length) :
    listSwap (l₁ ++ l₂) i j = listSwap l₁ i j ++ l₂ := by
  unfold listSwap
  rw [List.getElem?_append_left hi, List.getElem?_append_left hj,
    List.getElem?_eq_getElem hi, List.getElem?_eq_getElem hj]
  simp only [List.set_append, hi, hj, if_pos, List.length_set]

theorem map_listSwap {α β : Type} (f : α → β) (l : List α) (i j : Nat) :
    (listSwap l i j).map f = listSwap (l.map f) i j := by
  unfold listSwap
  cases hi : l[i]? <;> cases hj : l[j]? <;>
    simp [List.getElem?_map, hi, hj, List.map_set]

theorem renumberFrom_map_id : ∀ (n : Nat) (l : List Card),
    (renumberFrom n l).map Card.id = l.map Card.id
  | _, [] => rfl
  | n, c :: t => by simp [renumberFrom, renumberFrom_map_id (n + 1) t]

theorem renumber_map_id (l : List Card) :
    (renumber l).map Card.id = l.map Card.id :=
  renumberFrom_map_id 0 l

theorem restampFrom_map_id (idxs : List Nat) : ∀ (n : Nat) (l : List Card),
    (restampFrom idxs n l).map Card.id = l.map Card.id
  | _, [] => rfl
  | n, c :: t => by simp [restampFrom, restampFrom_map_id idxs (n + 1) t]

theorem restampFrom_length (idxs : List Nat) : ∀ (n : Nat) (l : List Card),
    (restampFrom idxs n l).length = l.length
  | _, [] => rfl
  | n, c :: t => by simp [restampFrom, restampFrom_length idxs (n + 1) t]

theorem restampFrom_getElem (idxs : List Nat) :
    ∀ (n : Nat) (l : List Card) (i : Nat) (h : i < (restampFrom idxs n l).length),
      (restampFrom idxs n l)[i] =
        { l.get ⟨i, by rw [restampFrom_length] at h; exact h⟩ with
          position := n + i, isHighlighted := decide ((n + i) ∈ idxs) }
  | n, c :: t, 0, h => by simp [restampFrom]
  | n, c :: t, i + 1, h => by
      have hlen : i < (restampFrom idxs (n + 1) t).length := by
        simp only [restampFrom, List.length_cons] at h
        rw [restampFrom_length] at h ⊢
        omega
      have ih := restampFrom_getElem idxs (n + 1) t i hlen
      simp only [restampFrom, List.getElem_cons_succ]
      rw [ih]
      have e : n + 1 + i = n + (i + 1) := by omega
      rw [e]
      simp

/-! ### The Fisher-Yates loop at trace level -/

theorem fyLoopT_perm {α : Type} : ∀ (i : Nat) (t : List Nat) (l : List α),
    List.Perm (fyLoopT i t l) l
  | 0, _, l => List.Perm.refl l
  | _ + 1, [], l => List.Perm.refl l
  | i + 1, j :: t, l =>
      (fyLoopT_perm i t (listSwap l (i + 1) j)).trans (listSwap_perm l (i + 1) j)

theorem fyLoopT_length {α : Type} (i : Nat) (t : List Nat) (l : List α) :
    (fyLoopT i t l).length = l.length :=
  (fyLoopT_perm i t l).length_eq

theorem fyLoop_eq_fyLoopT (r : Rand) : ∀ (i k : Nat) (l : List Card),
    fyLoop r k i l = fyLoopT i (jTrace r k i) l
  | 0, _, _ => rfl
  | i + 1, k, l => by
      simp only [fyLoop, jTrace, fyLoopT]
      exact fyLoop_eq_fyLoopT r i (k + 1) _

theorem map_fyLoopT {α β : Type} (f : α → β) : ∀ (i : Nat) (t : List Nat) (l : List α),
    (fyLoopT i t l).map f = fyLoopT i t (l.map f)
  | 0, _, _ => rfl
  | _ + 1, [], _ => rfl
  | i + 1, j :: t, l => by
      simp only [fyLoopT]
      rw [map_fyLoopT f i t, map_listSwap]

theorem fyLoopT_append {α : Type} : ∀ (i : Nat) (t : List Nat) (l₁ l₂ : List α),
    i < l₁.length → (∀ x ∈ t, x < l₁.length) →
    fyLoopT i t (l₁ ++ l₂) = fyLoopT i t l₁ ++ l₂
  | 0, _, _, _, _, _ => rfl
  | _ + 1, [], _, _, _, _ => rfl
  | i + 1, j :: t, l₁, l₂, hi, hb => by
      simp only [fyLoopT]
      rw [listSwap_append l₁ l₂ (i + 1) j hi (hb j (by simp))]
      exact fyLoopT_append i t (listSwap l₁ (i + 1) j) l₂
        (by rw [listSwap_length]; omega)
        (fun x hx => by rw [listSwap_length]; exact hb x (List.mem_cons_of_mem j hx))

theorem validTrace_lt (t : List Nat) : ∀ (n : Nat), validTrace n t = true →
    ∀ x ∈ t, x < n := by
  induction t with
  | nil => simp
  | cons j t ih =>
      intro n h
      match n with
      | 0 => simp [validTrace] at h
      | 1 => simp [validTrace] at h
      | n + 2 =>
          simp only [validTrace, Bool.and_eq_true, decide_eq_true_eq] at h
          intro x hx
          rcases List.mem_cons.mp hx with rfl | hx
          · omega
          · have := ih (n + 1) h.2 x hx
            omega

/-! ### Each shuffle produces a permutation of its input -/

theorem riffleLoop_perm (r : Rand) : ∀ (k : Nat) (left right : List Card),
    List.Perm (riffleLoop r k left right) (left ++ right)
  | _, [], [] => by simp [riffleLoop]
  | k, [], b :: right => by
      simpa [riffleLoop] using (riffleLoop_perm r k [] right).cons b
  | k, a :: left, [] => by
      simpa [riffleLoop] using (riffleLoop_perm r k left []).cons a
  | k, a :: left, b :: right => by
      rw [riffleLoop]
      split
      · exact (riffleLoop_perm r (k + 1) left (b :: right)).cons a
      · refine ((riffleLoop_perm r (k + 1) (a :: left) right).cons b).trans ?_
        exact List.perm_middle.symm
termination_by _ left right => left.length + right.length

theorem overhandLoop_perm (r : Rand) (hr : validRand r) :
    ∀ (fuel k : Nat) (working result : List Card), working.length ≤ fuel →
      List.Perm (overhandLoop r fuel k working result) (working ++ result)
  | _, _, [], result, _ => by simp [overhandLoop]
  | 0, _, _ :: _, _, h => by simp at h
  | fuel + 1, k, w :: ws, result, h => by
      have hfl : (⌊r k * 7⌋ + 1).toNat ≥ 1 := by
        have h0 : (0 : ℚ) ≤ r k * 7 := by
          have := (hr k).1; positivity
        have : (0 : ℤ) ≤ ⌊r k * 7⌋ := Int.floor_nonneg.mpr h0
        omega
      have hgs : 1 ≤ min (w :: ws).length ((⌊r k * 7⌋ + 1).toNat) := by
        simp only [List.length_cons]
        omega
      have hlen : ((w :: ws).drop (min (w :: ws).length ((⌊r k * 7⌋ + 1).toNat))).length ≤ fuel := by
        simp only [List.length_drop, List.length_cons] at h ⊢
        simp only [List.length_cons] at hgs
        omega
      refine (overhandLoop_perm r hr fuel (k + 1) _ _ hlen).trans ?_
      rw [← List.append_assoc]
      refine (List.Perm.append_right result List.perm_append_comm).trans ?_
      rw [List.take_append_drop]

theorem hinduLoop_perm (r : Rand) (hr : validRand r) :
    ∀ (fuel k : Nat) (working result : List Card), working.length ≤ fuel →
      List.Perm (hinduLoop r fuel k working result) (working ++ result)
  | _, _, [], result, _ => by simp [hinduLoop]
  | 0, _, _ :: _, _, h => by simp at h
  | fuel + 1, k, w :: ws, result, h => by
      have hfl : (⌊r k * 6⌋ + 1).toNat ≥ 1 := by
        have h0 : (0 : ℚ) ≤ r k * 6 := by
          have := (hr k).1; positivity
        have : (0 : ℤ) ≤ ⌊r k * 6⌋ := Int.floor_nonneg.mpr h0
        omega
      have hlen : ((w :: ws).take ((w :: ws).length - min (w :: ws).length ((⌊r k * 6⌋ + 1).toNat))).length ≤ fuel := by
        simp only [List.length_take, List.length_cons]
        simp only [List.length_cons] at h
        omega
      refine (hinduLoop_perm r hr fuel (k + 1) _ _ hlen).trans ?_
      refine (List.Perm.append_left _ List.perm_append_comm).trans ?_
      rw [← List.append_assoc, List.take_append_drop]

/-! ### How `applyShuffleStep` transforms the card order -/

theorem applyShuffleStep_swap_ids (d : List Card) (step : ShuffleStep)
    (i j : Nat) (ha : step.action = StepAction.swap) (hc : step.cardIndices = [i, j]) :
    (applyShuffleStep d step).map Card.id = listSwap (d.map Card.id) i j := by
  unfold applyShuffleStep
  rw [restampFrom_map_id, ha, hc, map_listSwap]

theorem applyShuffleStep_nonswap_ids (d : List Card) (step : ShuffleStep)
    (ha : step.action ≠ StepAction.swap) :
    (applyShuffleStep d step).map Card.id = d.map Card.id := by
  unfold applyShuffleStep
  rw [restampFrom_map_id]
  split
  · simp_all
  · rfl

theorem foldl_apply_nonswap_ids :
    ∀ (steps : List ShuffleStep) (d : List Card),
      (∀ s ∈ steps, s.action ≠ StepAction.swap) →
      (List.foldl applyShuffleStep d steps).map Card.id = d.map Card.id
  | [], _, _ => rfl
  | s :: rest, d, h => by
      rw [List.foldl_cons,
        foldl_apply_nonswap_ids rest _ (fun x hx => h x (List.mem_cons_of_mem s hx))]
      exact applyShuffleStep_nonswap_ids d s (h s (List.mem_cons_self s rest))

/-! ### The recorded steps of the riffle, overhand and hindu shuffles are
never swap records, so replaying them cannot reorder anything -/

theorem riffleStepsLoop_action (r : Rand) (sp : Nat) :
    ∀ (k sc li ri rl : Nat) (left right : List Card) (s : ShuffleStep),
      s ∈ riffleStepsLoop r sp k sc li ri rl left right →
      s.action = StepAction.move
  | _, _, _, _, _, [], [], _, hmem => by simp [riffleStepsLoop] at hmem
  | k, sc, li, ri, rl, [], b :: right, s, hmem => by
      rw [riffleStepsLoop] at hmem
      rcases List.mem_cons.mp hmem with rfl | hmem
      · rfl
      · exact riffleStepsLoop_action r sp k (sc + 1) li (ri + 1) (rl + 1) [] right s hmem
  | k, sc, li, ri, rl, a :: left, [], s, hmem => by
      rw [riffleStepsLoop] at hmem
      rcases List.mem_cons.mp hmem with rfl | hmem
      · rfl
      · exact riffleStepsLoop_action r sp k (sc + 1) (li + 1) ri (rl + 1) left [] s hmem
  | k, sc, li, ri, rl, a :: left, b :: right, s, hmem => by
      rw [riffleStepsLoop] at hmem
      split at hmem
      · rcases List.mem_cons.mp hmem with rfl | hmem
        · rfl
        · exact riffleStepsLoop_action r sp (k + 1) (sc + 1) (li + 1) ri (rl + 1)
            left (b :: right) s hmem
      · rcases List.mem_cons.mp hmem with rfl | hmem
        · rfl
        · exact riffleStepsLoop_action r sp (k + 1) (sc + 1) li (ri + 1) (rl + 1)
            (a :: left) right s hmem
termination_by _ _ _ _ _ left right => left.length + right.length

theorem riffleShuffleSteps_nonswap (deck : List Card) (r : Rand) :
    ∀ s ∈ riffleShuffleSteps deck r, s.action ≠ StepAction.swap := by
  intro s hmem
  rw [riffleShuffleSteps] at hmem
  rcases List.mem_cons.mp hmem with rfl | hmem
  · simp
  · rw [riffleStepsLoop_action r _ _ _ _ _ _ _ _ s hmem]
    simp

theorem overhandStepsLoop_action (r : Rand) :
    ∀ (fuel k sc rl : Nat) (working : List Card) (s : ShuffleStep),
      s ∈ overhandStepsLoop r fuel k sc rl working → s.action = StepAction.move
  | _, _, _, _, [], _, hmem => by simp [overhandStepsLoop] at hmem
  | 0, _, _, _, _ :: _, _, hmem => by simp [overhandStepsLoop] at hmem
  | fuel + 1, k, sc, rl, w :: ws, s, hmem => by
      rw [overhandStepsLoop] at hmem
      rcases List.mem_cons.mp hmem with rfl | hmem
      · rfl
      · exact overhandStepsLoop_action r fuel (k + 1) (sc + 1) _ _ s hmem

theorem hinduStepsLoop_action (r : Rand) :
    ∀ (fuel k sc rl : Nat) (working : List Card) (s : ShuffleStep),
      s ∈ hinduStepsLoop r fuel k sc rl working → s.action = StepAction.move
  | _, _, _, _, [], _, hmem => by simp [hinduStepsLoop] at hmem
  | 0, _, _, _, _ :: _, _, hmem => by simp [hinduStepsLoop] at hmem
  | fuel + 1, k, sc, rl, w :: ws, s, hmem => by
      rw [hinduStepsLoop] at hmem
      rcases List.mem_cons.mp hmem with rfl | hmem
      · rfl
      · exact hinduStepsLoop_action r fuel (k + 1) (sc + 1) _ _ s hmem

/-! ### Replaying the Fisher-Yates records reproduces the bulk loop -/

theorem fyReplay_ids (r : Rand) : ∀ (i k sn : Nat) (w d : List Card),
    d.map Card.id = w.map Card.id →
    (List.foldl applyShuffleStep d (fyStepsLoop r k sn i w)).map Card.id
      = (fyLoop r k i w).map Card.id
  | 0, _, _, _, _, h => h
  | i + 1, k, sn, w, d, h => by
      rw [fyStepsLoop, fyLoop, List.foldl_cons]
      refine fyReplay_ids r i (k + 1) (sn + 1) _ _ ?_
      rw [applyShuffleStep_swap_ids _ _ (i + 1) (randInt r k (i + 2)) rfl rfl,
        map_listSwap, h]

/-! ### Concrete fixtures used by witnesses and counterexamples -/

/-- A concrete card with id "a". -/
def cardA : Card :=
  { id := "a", suit := "hearts", rank := "A", position := 0, isHighlighted := false }

/-- A concrete card with id "b". -/
def cardB : Card :=
  { id := "b", suit := "spades", rank := "K", position := 1, isHighlighted := false }

/-- A two-card deck with distinct ids. -/
def deckAB : List Card := [cardA, cardB]

/-- The two-card deck in the opposite order. -/
def deckBA : List Card := [cardB, cardA]

/-- A one-card deck, used for mismatched-length inputs. -/
def deckB : List Card := [cardB]

/-- The random source that always draws 0. -/
def randZero : Rand := fun _ => 0

/-- The random source that always draws 1/2. -/
def randHalf : Rand := fun _ => 1 / 2

theorem validRand_randZero : validRand randZero :=
  fun _ => ⟨le_rfl, by norm_num [randZero]⟩

theorem validRand_randHalf : validRand randHalf :=
  fun _ => ⟨by norm_num [randHalf], by norm_num [randHalf]⟩

/-! ### Claim C2 -/

/-- C2: for every input sequence of length at least one and every choice of
random draws from `[0,1)`, each of the four bulk shuffle functions returns
a sequence containing exactly the same multiset of card ids as the input:
the output is a permutation of the input. -/
theorem claim2_shuffles_are_permutations (deck : List Card) (r : Rand)
    (hr : validRand r) (_hN : 1 ≤ deck.length) :
    List.Perm ((fisherYatesShuffle deck r).map Card.id) (deck.map Card.id)
    ∧ List.Perm ((riffleShuffle deck r).map Card.id) (deck.map Card.id)
    ∧ List.Perm ((overhandShuffle deck r).map Card.id) (deck.map Card.id)
    ∧ List.Perm ((hinduShuffle deck r).map Card.id) (deck.map Card.id) := by
  refine ⟨?_, ?_, ?_, ?_⟩
  · rw [fisherYatesShuffle, renumber_map_id, fyLoop_eq_fyLoopT]
    exact (fyLoopT_perm _ _ deck).map Card.id
  · show List.Perm ((renumber (riffleLoop r 1
        (deck.take (riffleSplitPoint deck.length (r 0)))
        (deck.drop (riffleSplitPoint deck.length (r 0))))).map Card.id)
      (deck.map Card.id)
    rw [renumber_map_id]
    refine ((riffleLoop_perm r 1 _ _).map Card.id).trans ?_
    rw [List.take_append_drop]
  · rw [overhandShuffle, renumber_map_id]
    refine ((overhandLoop_perm r hr deck.length 0 deck [] le_rfl).map Card.id).trans ?_
    rw [List.append_nil]
  · rw [hinduShuffle, renumber_map_id]
    refine ((hinduLoop_perm r hr deck.length 0 deck [] le_rfl).map Card.id).trans ?_
    rw [List.append_nil]

/-- Witness for C2: the theorem instantiated at the concrete two-card deck
and the constant-zero random source. -/
theorem claim2_witness :
    List.Perm ((fisherYatesShuffle deckAB randZero).map Card.id) (deckAB.map Card.id)
    ∧ List.Perm ((riffleShuffle deckAB randZero).map Card.id) (deckAB.map Card.id)
    ∧ List.Perm ((overhandShuffle deckAB randZero).map Card.id) (deckAB.map Card.id)
    ∧ List.Perm ((hinduShuffle deckAB randZero).map Card.id) (deckAB.map Card.id) :=
  claim2_shuffles_are_permutations deckAB randZero validRand_randZero (by decide)

/-! ### Claim C1 -/

/-- C1 (amended): replaying the recorded step list through
`applyShuffleStep` reproduces the bulk card order for `fisherYatesShuffle`
(whose records are all swap records mirroring the bulk swaps); for the
riffle, overhand and hindu variants every recorded step is a `move` or
`split` record, which `applyShuffleStep` leaves in place, so their replay
keeps the original card order instead of the bulk output. -/
theorem claim1_step_replay (deck : List Card) (r : Rand) (_hr : validRand r) :
    (List.foldl applyShuffleStep deck (fisherYatesShuffleSteps deck r)).map Card.id
      = (fisherYatesShuffle deck r).map Card.id
    ∧ (List.foldl applyShuffleStep deck (riffleShuffleSteps deck r)).map Card.id
      = deck.map Card.id
    ∧ (List.foldl applyShuffleStep deck (overhandShuffleSteps deck r)).map Card.id
      = deck.map Card.id
    ∧ (List.foldl applyShuffleStep deck (hinduShuffleSteps deck r)).map Card.id
      = deck.map Card.id := by
  refine ⟨?_, ?_, ?_, ?_⟩
  · rw [fisherYatesShuffle, renumber_map_id, fisherYatesShuffleSteps]
    exact fyReplay_ids r (deck.length - 1) 0 1 deck deck rfl
  · exact foldl_apply_nonswap_ids _ deck (riffleShuffleSteps_nonswap deck r)
  · refine foldl_apply_nonswap_ids _ deck ?_
    intro s hs
    rw [overhandShuffleSteps] at hs
    rw [overhandStepsLoop_action r _ _ _ _ _ s hs]
    simp
  · refine foldl_apply_nonswap_ids _ deck ?_
    intro s hs
    rw [hinduShuffleSteps] at hs
    rw [hinduStepsLoop_action r _ _ _ _ _ s hs]
    simp

/-- Witness for C1 (amended): the theorem instantiated at the concrete
two-card deck and the constant-1/2 random source. -/
theorem claim1_witness :
    (List.foldl applyShuffleStep deckAB (fisherYatesShuffleSteps deckAB randHalf)).map Card.id
      = (fisherYatesShuffle deckAB randHalf).map Card.id
    ∧ (List.foldl applyShuffleStep deckAB (riffleShuffleSteps deckAB randHalf)).map Card.id
      = deckAB.map Card.id
    ∧ (List.foldl applyShuffleStep deckAB (overhandShuffleSteps deckAB randHalf)).map Card.id
      = deckAB.map Card.id
    ∧ (List.foldl applyShuffleStep deckAB (hinduShuffleSteps deckAB randHalf)).map Card.id
      = deckAB.map Card.id :=
  claim1_step_replay deckAB randHalf validRand_randHalf

/-- C1 counterexample: on the two-card deck with every draw equal to 1/2,
the bulk riffle shuffle produces card order [b, a], but replaying the
records of `riffleShuffleSteps` (same draws) through `applyShuffleStep`
leaves the order at [a, b]: step mode does not reproduce bulk mode. -/
theorem claim1_counterexample :
    ¬ ((List.foldl applyShuffleStep deckAB (riffleShuffleSteps deckAB randHalf)).map Card.id
        = (riffleShuffle deckAB randHalf).map Card.id) := by
  have h1 : (riffleShuffle deckAB randHalf).map Card.id = ["b", "a"] := by
    norm_num [riffleShuffle, riffleSplitPoint, riffleLoop, renumber, renumberFrom,
      deckAB, cardA, cardB, randHalf]
  have h2 : (List.foldl applyShuffleStep deckAB
      (riffleShuffleSteps deckAB randHalf)).map Card.id = ["a", "b"] := by
    norm_num [riffleShuffleSteps, riffleStepsLoop, riffleSplitPoint, applyShuffleStep,
      restampFrom, deckAB, cardA, cardB, randHalf, listSwap]
  rw [h1, h2]
  decide

/-! ### Claim C9 -/

/-- C9: for a deck and a step whose indices are all in range,
`applyShuffleStep` returns a deck of the same length in which (i) a card is
highlighted exactly when its index is listed in `cardIndices` and every
card's `position` equals its index, (ii) a `swap` step with exactly two
indices exchanges the two indexed elements, and (iii) any other step leaves
the element order unchanged. -/
theorem claim9_applyShuffleStep_contract (deck : List Card) (step : ShuffleStep)
    (hin : ∀ i ∈ step.cardIndices, i < deck.length) :
    (applyShuffleStep deck step).length = deck.length
    ∧ (∀ (i : Nat) (h : i < (applyShuffleStep deck step).length),
        (((applyShuffleStep deck step).get ⟨i, h⟩).isHighlighted = true
            ↔ i ∈ step.cardIndices)
        ∧ ((applyShuffleStep deck step).get ⟨i, h⟩).position = i)
    ∧ (∀ i1 i2, step.action = StepAction.swap → step.cardIndices = [i1, i2] →
        ∀ k : Nat, ((applyShuffleStep deck step).map Card.id)[k]?
          = (deck.map Card.id)[if k = i1 then i2 else if k = i2 then i1 else k]?)
    ∧ (¬ (step.action = StepAction.swap ∧ step.cardIndices.length = 2) →
        (applyShuffleStep deck step).map Card.id = deck.map Card.id) := by
  have hlen : (applyShuffleStep deck step).length = deck.length := by
    unfold applyShuffleStep
    rw [restampFrom_length]
    split
    · rw [listSwap_length]
    · rfl
  refine ⟨hlen, ?_, ?_, ?_⟩
  · intro i h
    unfold applyShuffleStep at h ⊢
    rw [List.get_eq_getElem, restampFrom_getElem]
    constructor
    · simp
    · simp
  · intro i1 i2 ha hc k
    have hi1 : i1 < deck.length := hin i1 (by rw [hc]; simp)
    have hi2 : i2 < deck.length := hin i2 (by rw [hc]; simp)
    rw [applyShuffleStep_swap_ids deck step i1 i2 ha hc,
      listSwap_getElem? _ i1 i2 k (by simpa using hi1) (by simpa using hi2)]
    split_ifs <;> rfl
  · intro hna
    unfold applyShuffleStep
    rw [restampFrom_map_id]
    split
    · next heq1 heq2 =>
        exact absurd ⟨heq1, by rw [heq2]; rfl⟩ hna
    · rfl

/-- A swap record with indices [1, 0], used by the C9 witness. -/
def swapStepAB : ShuffleStep :=
  { description := "swap the two cards", cardIndices := [1, 0],
    action := StepAction.swap, fromPositions := [1, 0], toPositions := [0, 1] }

/-- Witness for C9: the contract instantiated at the two-card deck and the
swap record with indices [1, 0]. -/
theorem claim9_witness :
    (applyShuffleStep deckAB swapStepAB).length = deckAB.length
    ∧ (∀ (i : Nat) (h : i < (applyShuffleStep deckAB swapStepAB).length),
        (((applyShuffleStep deckAB swapStepAB).get ⟨i, h⟩).isHighlighted = true
            ↔ i ∈ swapStepAB.cardIndices)
        ∧ ((applyShuffleStep deckAB swapStepAB).get ⟨i, h⟩).position = i)
    ∧ (∀ i1 i2, swapStepAB.action = StepAction.swap →
        swapStepAB.cardIndices = [i1, i2] →
        ∀ k : Nat, ((applyShuffleStep deckAB swapStepAB).map Card.id)[k]?
          = (deckAB.map Card.id)[if k = i1 then i2 else if k = i2 then i1 else k]?)
    ∧ (¬ (swapStepAB.action = StepAction.swap ∧ swapStepAB.cardIndices.length = 2) →
        (applyShuffleStep deckAB swapStepAB).map Card.id = deckAB.map Card.id) :=
  claim9_applyShuffleStep_contract deckAB swapStepAB (by decide)

/-! ### Claim C7 -/

/-- C7 (amended): `compareAlgorithms` names the strictly higher
`randomnessScore` as the randomness winner and the strictly lower average
time / `averageSteps` as the speed / step winner; on a tie in any metric
the SECOND-listed algorithm (`stats2`) wins, because the strict comparisons
fail on equality. With scores 90 versus 70 the randomness winner is
`stats1` (witness). -/
theorem claim7_compare_winners (stats1 stats2 : ShuffleStatistics) :
    (stats1.randomnessScore > stats2.randomnessScore →
      (compareAlgorithms stats1 stats2).randomnessComparison.winner
        = stats1.algorithmName)
    ∧ (stats1.randomnessScore ≤ stats2.randomnessScore →
      (compareAlgorithms stats1 stats2).randomnessComparison.winner
        = stats2.algorithmName)
    ∧ (getAverageExecutionTime stats1 < getAverageExecutionTime stats2 →
      (compareAlgorithms stats1 stats2).speedComparison.winner
        = stats1.algorithmName)
    ∧ (getAverageExecutionTime stats2 ≤ getAverageExecutionTime stats1 →
      (compareAlgorithms stats1 stats2).speedComparison.winner
        = stats2.algorithmName)
    ∧ (stats1.averageSteps < stats2.averageSteps →
      (compareAlgorithms stats1 stats2).stepComparison.winner
        = stats1.algorithmName)
    ∧ (stats2.averageSteps ≤ stats1.averageSteps →
      (compareAlgorithms stats1 stats2).stepComparison.winner
        = stats2.algorithmName) := by
  simp only [compareAlgorithms]
  refine ⟨fun h => ?_, fun h => ?_, fun h => ?_, fun h => ?_, fun h => ?_, fun h => ?_⟩
  · exact if_pos h
  · exact if_neg (not_lt.mpr h)
  · exact if_pos h
  · exact if_neg (not_lt.mpr h)
  · exact if_pos h
  · exact if_neg (not_lt.mpr h)

/-- Statistics fixture: algorithm "A" with randomness score 90. -/
def statsA90 : ShuffleStatistics :=
  { algorithmName := "A", shuffleCount := 1, averageSteps := 3,
    randomnessScore := 90, executionTimes := [] }

/-- Statistics fixture: algorithm "B" with randomness score 70. -/
def statsB70 : ShuffleStatistics :=
  { algorithmName := "B", shuffleCount := 1, averageSteps := 5,
    randomnessScore := 70, executionTimes := [] }

/-- Statistics fixture used for ties: algorithm "A", all metrics equal to
`statsTieB`. -/
def statsTieA : ShuffleStatistics :=
  { algorithmName := "A", shuffleCount := 2, averageSteps := 4,
    randomnessScore := 50, executionTimes := [] }

/-- Statistics fixture used for ties: algorithm "B", all metrics equal to
`statsTieA`. -/
def statsTieB : ShuffleStatistics :=
  { algorithmName := "B", shuffleCount := 2, averageSteps := 4,
    randomnessScore := 50, executionTimes := [] }

/-- Witness for C7 (amended): with randomness scores 90 versus 70 the
randomness winner is the first-listed algorithm "A". -/
theorem claim7_witness :
    (compareAlgorithms statsA90 statsB70).randomnessComparison.winner
      = statsA90.algorithmName :=
  (claim7_compare_winners statsA90 statsB70).1 (by decide)

/-- C7 counterexample: on two statistics records that tie on every metric,
`compareAlgorithms` names the SECOND-listed algorithm "B" the winner of all
three metrics, so the claim that the first-listed algorithm wins ties is
false. -/
theorem claim7_counterexample :
    (compareAlgorithms statsTieA statsTieB).randomnessComparison.winner
        = statsTieB.algorithmName
    ∧ (compareAlgorithms statsTieA statsTieB).speedComparison.winner
        = statsTieB.algorithmName
    ∧ (compareAlgorithms statsTieA statsTieB).stepComparison.winner
        = statsTieB.algorithmName
    ∧ statsTieB.algorithmName ≠ statsTieA.algorithmName := by
  refine ⟨?_, ?_, ?_, by decide⟩ <;> rfl

/-! ### Claim C6 -/

/-- C6 (amended): `updateAlgorithmStatistics` maintains `averageSteps` by
the nested rounding recurrence `round((oldAvg*oldCount + s)/newCount)`.
This equals `round(mean)` after one and after two updates, but reuses the
already rounded previous average, so for three or more updates it can
differ from `round(mean(s1..sk))` (counterexample). -/
theorem update_shuffleCount (stats : ShuffleStatistics) (o s : List Card)
    (t : ℚ) (sc : Nat) :
    (updateAlgorithmStatistics stats o s t sc).shuffleCount = stats.shuffleCount + 1 :=
  rfl

theorem update_averageSteps (stats : ShuffleStatistics) (o s : List Card)
    (t : ℚ) (sc : Nat) :
    (updateAlgorithmStatistics stats o s t sc).averageSteps
      = jsRound (((stats.averageSteps : ℚ) * (stats.shuffleCount : ℚ) + (sc : ℚ))
          / ((stats.shuffleCount + 1 : Nat) : ℚ)) :=
  rfl

theorem claim6_average_steps (name : String) (o s : List Card) (t1 t2 : ℚ)
    (s1 s2 : Nat) :
    (updateAlgorithmStatistics (initializeAlgorithmStatistics name) o s t1 s1).averageSteps
        = (s1 : ℤ)
    ∧ (updateAlgorithmStatistics (updateAlgorithmStatistics
          (initializeAlgorithmStatistics name) o s t1 s1) o s t2 s2).averageSteps
        = jsRound (((s1 : ℚ) + (s2 : ℚ)) / 2) := by
  have h1 : (updateAlgorithmStatistics (initializeAlgorithmStatistics name) o s t1 s1).averageSteps
      = (s1 : ℤ) := by
    rw [update_averageSteps]
    simp only [initializeAlgorithmStatistics, jsRound]
    push_cast
    norm_num
  refine ⟨h1, ?_⟩
  rw [update_averageSteps, h1, update_shuffleCount]
  simp only [initializeAlgorithmStatistics]
  norm_num

/-- C6 counterexample: after updates with step counts 0, 1, 0 the stored
`averageSteps` is 1 (the rounded average 1 of the first two samples is
reused), while `round(mean(0,1,0)) = round(1/3) = 0`. -/
theorem claim6_counterexample :
    (updateAlgorithmStatistics (updateAlgorithmStatistics (updateAlgorithmStatistics
        (initializeAlgorithmStatistics "X") deckAB deckAB 0 0) deckAB deckAB 0 1)
        deckAB deckAB 0 0).averageSteps
      ≠ jsRound (((0 : ℚ) + 1 + 0) / 3) := by
  have hl : (updateAlgorithmStatistics (updateAlgorithmStatistics (updateAlgorithmStatistics
      (initializeAlgorithmStatistics "X") deckAB deckAB 0 0) deckAB deckAB 0 1)
      deckAB deckAB 0 0).averageSteps = 1 := by
    simp only [update_averageSteps, update_shuffleCount,
      initializeAlgorithmStatistics, jsRound]
    norm_num
  have hr : jsRound (((0 : ℚ) + 1 + 0) / 3) = 0 := by
    simp only [jsRound]
    norm_num
  rw [hl, hr]
  decide

/-! ### Claim C5 -/

/-- C5 (amended): `calculateRandomnessMetrics` fails closed to 0 whenever
the two input sequences have different lengths. (`calculateEntropy` has no
such guard: see the counterexample, where it returns 100 on mismatched
lengths.) -/
theorem claim5_metrics_fail_closed (originalDeck shuffledDeck : List Card)
    (h : originalDeck.length ≠ shuffledDeck.length) :
    calculateRandomnessMetrics originalDeck shuffledDeck = 0 := by
  unfold calculateRandomnessMetrics
  rw [if_neg h]

/-- Witness for C5 (amended): the two-card deck against the one-card deck. -/
theorem claim5_witness : calculateRandomnessMetrics deckAB deckB = 0 :=
  claim5_metrics_fail_closed deckAB deckB (by decide)

/-- The displacement list computed by `calculateEntropy` for the
mismatched-length pair ([a, b], [b]): card a is unseen (position defaults
to 0), card b moved from index 1 to index 0. -/
theorem diffsFrom_deckAB_deckB : diffsFrom deckB 0 deckAB = [0, 1] := by
  simp [diffsFrom, posOf, deckAB, deckB, cardA, cardB, List.range_succ, List.range_zero,
    List.zip_cons_cons, List.zip_nil_left, List.zip_nil_right, List.find?_cons, List.find?]

/-- C5 counterexample: `calculateEntropy` has no length guard: on the
mismatched-length pair ([a, b], [b]) it returns 100, not 0. -/
theorem claim5_counterexample :
    deckAB.length ≠ deckB.length ∧ calculateEntropy deckAB deckB = some 100 := by
  refine ⟨by decide, ?_⟩
  simp only [calculateEntropy, diffsFrom_deckAB_deckB]
  norm_num [List.max?, List.range_succ, List.count_cons]
  rw [show ((1 : ℝ) / 2) = 2⁻¹ by norm_num, Real.logb_inv,
    Real.logb_self_eq_one (by norm_num)]
  norm_num

/-! ### Claim C8 -/

/-- A `move` record whose index 99 is out of range for any small deck. -/
def moveStep99 : ShuffleStep :=
  { description := "move a card that does not exist", cardIndices := [99],
    action := StepAction.move, fromPositions := [99], toPositions := [0] }

/-- C8 (amended): none of the operations fails fast on invalid input.
Every shuffle of an empty collection silently returns the empty collection
(and the Fisher-Yates recorder returns an empty record list),
`getAlgorithmByName` returns `undefined` (`none`) for every unknown name,
and `applyShuffleStep` processes a non-swap record with out-of-range
indices without error, returning the deck order unchanged. -/
theorem claim8_no_fail_fast (r : Rand) (name : String)
    (hname : name ∉ ["Fisher-Yates", "Riffle Shuffle", "Overhand Shuffle", "Hindu Shuffle"])
    (deck : List Card) (step : ShuffleStep) (hstep : step.action ≠ StepAction.swap) :
    fisherYatesShuffle [] r = []
    ∧ riffleShuffle [] r = []
    ∧ overhandShuffle [] r = []
    ∧ hinduShuffle [] r = []
    ∧ fisherYatesShuffleSteps [] r = []
    ∧ getAlgorithmByName name = none
    ∧ (applyShuffleStep deck step).map Card.id = deck.map Card.id := by
  simp only [List.mem_cons, List.mem_singleton, not_or] at hname
  obtain ⟨h1, h2, h3, h4, -⟩ := hname
  refine ⟨rfl, ?_, rfl, rfl, rfl, ?_, applyShuffleStep_nonswap_ids deck step hstep⟩
  · show renumber (riffleLoop r 1 (List.take _ []) (List.drop _ [])) = []
    rw [List.take_nil, List.drop_nil, riffleLoop]
    rfl
  · rw [getAlgorithmByName, List.find?_eq_none]
    intro algo halgo
    simp only [SHUFFLE_ALGORITHMS, List.mem_cons, List.mem_singleton] at halgo
    rcases halgo with rfl | rfl | rfl | rfl | h
    · exact fun heq => h1 (eq_of_beq heq).symm
    · exact fun heq => h2 (eq_of_beq heq).symm
    · exact fun heq => h3 (eq_of_beq heq).symm
    · exact fun heq => h4 (eq_of_beq heq).symm
    · simp at h

/-- Witness for C8 (amended): instantiated at the constant-zero source, the
unknown name "No Such Algorithm" and the out-of-range move record. -/
theorem claim8_witness :
    fisherYatesShuffle [] randZero = []
    ∧ riffleShuffle [] randZero = []
    ∧ overhandShuffle [] randZero = []
    ∧ hinduShuffle [] randZero = []
    ∧ fisherYatesShuffleSteps [] randZero = []
    ∧ getAlgorithmByName "No Such Algorithm" = none
    ∧ (applyShuffleStep deckAB moveStep99).map Card.id = deckAB.map Card.id :=
  claim8_no_fail_fast randZero "No Such Algorithm" (by decide) deckAB moveStep99
    (by decide)

/-- C8 counterexample: the canonical invalid inputs all produce silent
results instead of errors: shuffling the empty collection returns the empty
collection, looking up the unknown name "Bogus" returns `undefined`
(`none`), and applying a record whose index 99 is out of range for the
two-card deck returns a deck (order unchanged) rather than failing. -/
theorem claim8_counterexample :
    fisherYatesShuffle [] randZero = []
    ∧ riffleShuffle [] randZero = []
    ∧ overhandShuffle [] randZero = []
    ∧ hinduShuffle [] randZero = []
    ∧ getAlgorithmByName "Bogus" = none
    ∧ applyShuffleStep deckAB moveStep99
        = [{ cardA with position := 0, isHighlighted := false },
           { cardB with position := 1, isHighlighted := false }] := by
  refine ⟨rfl, ?_, rfl, rfl, ?_, ?_⟩
  · show renumber (riffleLoop randZero 1 (List.take _ []) (List.drop _ [])) = []
    rw [List.take_nil, List.drop_nil, riffleLoop]
    rfl
  · rfl
  · rfl

/-! ### Claim C4 -/

/-- Spec displacement list (from the spec text, for comparison with the
code): for each original index `i`, `d = |new index - original index|`,
where the new index of an item is its unique index in the shuffled
sequence; under the no-duplicate-ids invariant that unique index is the
first index, which `findIndex` returns. -/
def specDisplacementsFrom (s : List Card) : Nat → List Card → List Nat
  | _, [] => []
  | i, c :: t =>
      (findIndexId s c.id - (i : ℤ)).natAbs :: specDisplacementsFrom s (i + 1) t

/-- Spec `displacedFraction = count(d ≠ 0) / N`. -/
def specDisplacedFraction (o s : List Card) : ℚ :=
  (((specDisplacementsFrom s 0 o).filter (fun d => d ≠ 0)).length : ℚ) / (o.length : ℚ)

/-- Spec `normalizedMeanDisplacement = min(mean(d) / (N/2), 1)`. -/
def specNormalizedMeanDisplacement (o s : List Card) : ℚ :=
  min ((((specDisplacementsFrom s 0 o).sum : ℚ) / (o.length : ℚ)) / ((o.length : ℚ) / 2)) 1

/-- Spec displacement score:
`round(100 * (0.6 * displacedFraction + 0.4 * normalizedMeanDisplacement))`. -/
def specDisplacementScore (o s : List Card) : ℤ :=
  jsRound (100 * (6 / 10 * specDisplacedFraction o s
    + 4 / 10 * specNormalizedMeanDisplacement o s))

/-- The accumulating loop of the code computes exactly the count of nonzero
displacements and the total displacement of the spec formula. -/
theorem metricsLoop_eq_specDisplacements (s : List Card) : ∀ (i : Nat) (l : List Card),
    metricsLoop s i l
      = (((specDisplacementsFrom s i l).filter (fun d => d ≠ 0)).length,
         (specDisplacementsFrom s i l).sum)
  | _, [] => rfl
  | i, c :: t => by
      rw [metricsLoop, specDisplacementsFrom, metricsLoop_eq_specDisplacements s (i + 1) t]
      by_cases h : findIndexId s c.id = (i : ℤ)
      · have hd : (findIndexId s c.id - (i : ℤ)).natAbs = 0 := by omega
        simp [h, hd]
      · have hd : (findIndexId s c.id - (i : ℤ)).natAbs ≠ 0 := by omega
        simp only [if_pos h, List.filter_cons, hd, decide_not, List.sum_cons]
        simp [hd]
        omega

/-- C4: for equal-length inputs of length at least one with the same
multiset of distinct ids, `calculateRandomnessMetrics` returns exactly
`round(100 * (0.6 * displacedFraction + 0.4 * normalizedMeanDisplacement))`
as the spec formula defines it. -/
theorem claim4_metrics_formula (originalDeck shuffledDeck : List Card)
    (hlen : originalDeck.length = shuffledDeck.length)
    (_hN : 1 ≤ originalDeck.length)
    (_hperm : List.Perm (shuffledDeck.map Card.id) (originalDeck.map Card.id))
    (_hnd : (originalDeck.map Card.id).Nodup) :
    calculateRandomnessMetrics originalDeck shuffledDeck
      = specDisplacementScore originalDeck shuffledDeck := by
  unfold calculateRandomnessMetrics
  rw [if_pos hlen, metricsLoop_eq_specDisplacements]
  unfold specDisplacementScore specDisplacedFraction specNormalizedMeanDisplacement
  unfold jsRound
  ring_nf

/-- Witness for C4: the two-card deck against its reversal. -/
theorem claim4_witness :
    calculateRandomnessMetrics deckAB deckBA = specDisplacementScore deckAB deckBA :=
  claim4_metrics_formula deckAB deckBA (by decide) (by decide) (by decide) (by decide)

/-! ### Claim C10 -/

theorem list_range_map_sum {M : Type} [AddCommMonoid M] (f : Nat → M) : ∀ (k : Nat),
    ((List.range k).map f).sum = ∑ d ∈ Finset.range k, f d
  | 0 => by simp
  | k + 1 => by
      rw [List.range_succ, List.map_append, List.sum_append, Finset.sum_range_succ,
        list_range_map_sum f k]
      simp

theorem sum_range_count (l : List Nat) : ∀ (k : Nat), (∀ x ∈ l, x < k) →
    ∑ d ∈ Finset.range k, l.count d = l.length := by
  induction l with
  | nil => simp
  | cons x t ih =>
      intro k h
      have hx : x ∈ Finset.range k := Finset.mem_range.mpr (h x (by simp))
      have ht : ∀ y ∈ t, y < k := fun y hy => h y (by simp [hy])
      simp only [List.count_cons, List.length_cons]
      rw [Finset.sum_add_distrib, ih k ht]
      congr 1
      simp only [beq_iff_eq]
      rw [Finset.sum_ite_eq]
      simp [hx]

theorem nat_max?_le (l : List Nat) (m : Nat) (hm : l.max? = some m) :
    ∀ x ∈ l, x ≤ m := by
  have := (List.max?_eq_some_iff (fun a => le_refl a) (fun a b => max_choice a b)
    (fun a b c => max_le_iff)).mp hm
  exact this.2

/-- C10 (amended): for every pair of inputs whose original deck is
nonempty (lengths may differ), `calculateEntropy` returns a defined score
in [0, 100]: the bucket entropy is nonnegative and, by concavity of
`negMulLog` (Jensen), at most `log2(bucketCount)`, the normaliser. When the
original deck is empty the code throws (`Math.max()` of no arguments is
-Infinity and `new Array(-Infinity + 1)` raises a RangeError), modelled as
`none` (counterexample). -/
theorem claim10_entropy_in_range (originalDeck shuffledDeck : List Card)
    (h : originalDeck ≠ []) :
    ∃ x : ℝ, calculateEntropy originalDeck shuffledDeck = some x
      ∧ 0 ≤ x ∧ x ≤ 100 := by
  have hne : diffsFrom shuffledDeck 0 originalDeck ≠ [] := by
    cases originalDeck with
    | nil => exact absurd rfl h
    | cons c t => simp [diffsFrom]
  obtain ⟨m, hmax⟩ : ∃ m, (diffsFrom shuffledDeck 0 originalDeck).max? = some m := by
    cases hx : (diffsFrom shuffledDeck 0 originalDeck).max? with
    | none => exact absurd (List.max?_eq_none_iff.mp hx) hne
    | some m => exact ⟨m, rfl⟩
  simp only [calculateEntropy, hmax]
  by_cases hm0 : m = 0
  · subst hm0
    rw [if_pos rfl]
    exact ⟨0, rfl, le_rfl, by norm_num⟩
  rw [if_neg hm0]
  set diffs := diffsFrom shuffledDeck 0 originalDeck with hdiffs
  have hT0 : (0:ℝ) < (diffs.length : ℝ) := by
    have := List.length_pos.mpr hne
    exact_mod_cast this
  have hlt : ∀ x ∈ diffs, x < m + 1 := by
    intro x hx
    have := nat_max?_le diffs m hmax x hx
    omega
  have hklen : (List.map (fun d => List.count d diffs) (List.range (m + 1))).length
      = m + 1 := by simp
  rw [hklen]
  have hm1 : (1:ℝ) < ((m + 1 : Nat) : ℝ) := by
    have h2 : 2 ≤ m + 1 := by omega
    have : (2:ℝ) ≤ ((m + 1 : Nat) : ℝ) := by exact_mod_cast h2
    linarith
  have hk0 : (0:ℝ) < ((m + 1 : Nat) : ℝ) := by linarith
  have hmaxE : 0 < Real.logb 2 ((m + 1 : Nat) : ℝ) := Real.logb_pos (by norm_num) hm1
  rw [if_pos hmaxE]
  have hlog2 : (0:ℝ) < Real.log 2 := Real.log_pos (by norm_num)
  have hterm : ∀ c : ℕ,
      (if 0 < c then
        -((c:ℝ) / (diffs.length : ℝ) * Real.logb 2 ((c:ℝ) / (diffs.length : ℝ)))
      else 0)
      = Real.negMulLog ((c:ℝ) / (diffs.length : ℝ)) / Real.log 2 := by
    intro c
    rcases Nat.eq_zero_or_pos c with rfl | hc
    · simp [Real.negMulLog]
    · rw [if_pos hc, Real.negMulLog, Real.logb]
      ring
  have hbig : (List.map (fun (count : Nat) =>
        if 0 < count then
          -((count:ℝ) / (diffs.length : ℝ) * Real.logb 2 ((count:ℝ) / (diffs.length : ℝ)))
        else 0)
      (List.map (fun d => List.count d diffs) (List.range (m + 1)))).sum
      = (∑ d ∈ Finset.range (m + 1),
          Real.negMulLog ((List.count d diffs : ℝ) / (diffs.length : ℝ))) / Real.log 2 := by
    rw [List.map_map, list_range_map_sum]
    simp only [Function.comp_apply]
    rw [Finset.sum_congr rfl (fun d _ => hterm (List.count d diffs)), ← Finset.sum_div]
  rw [hbig]
  set Sf := ∑ d ∈ Finset.range (m + 1),
      Real.negMulLog ((List.count d diffs : ℝ) / (diffs.length : ℝ)) with hSf
  have hp0 : ∀ d : ℕ, 0 ≤ (List.count d diffs : ℝ) / (diffs.length : ℝ) :=
    fun d => div_nonneg (Nat.cast_nonneg _) (Nat.cast_nonneg _)
  have hp1 : ∀ d : ℕ, (List.count d diffs : ℝ) / (diffs.length : ℝ) ≤ 1 := by
    intro d
    rw [div_le_one hT0]
    exact_mod_cast List.count_le_length d diffs
  have hSf0 : 0 ≤ Sf :=
    Finset.sum_nonneg fun d _ => Real.negMulLog_nonneg (hp0 d) (hp1 d)
  have hS1 : ∑ d ∈ Finset.range (m + 1),
      (List.count d diffs : ℝ) / (diffs.length : ℝ) = 1 := by
    rw [← Finset.sum_div]
    have : (∑ d ∈ Finset.range (m + 1), (List.count d diffs : ℝ))
        = ((∑ d ∈ Finset.range (m + 1), List.count d diffs : ℕ) : ℝ) := by
      push_cast
      rfl
    rw [this, sum_range_count diffs (m + 1) hlt]
    exact div_self (ne_of_gt hT0)
  have hw : ∑ _d ∈ Finset.range (m + 1), ((m + 1 : Nat) : ℝ)⁻¹ = 1 := by
    rw [Finset.sum_const, Finset.card_range, nsmul_eq_mul]
    exact mul_inv_cancel₀ (ne_of_gt hk0)
  have hjensen := Real.concaveOn_negMulLog.le_map_sum
    (t := Finset.range (m + 1)) (w := fun _ => ((m + 1 : Nat) : ℝ)⁻¹)
    (p := fun d => (List.count d diffs : ℝ) / (diffs.length : ℝ))
    (fun i _ => by positivity) hw (fun i _ => hp0 i)
  have hSfle : Sf ≤ Real.log ((m + 1 : Nat) : ℝ) := by
    have hL : ∑ i ∈ Finset.range (m + 1),
        ((m + 1 : Nat) : ℝ)⁻¹ • Real.negMulLog ((List.count i diffs : ℝ) / (diffs.length : ℝ))
        = ((m + 1 : Nat) : ℝ)⁻¹ * Sf := by
      rw [hSf, Finset.mul_sum]
      simp [smul_eq_mul]
    have hR : (∑ i ∈ Finset.range (m + 1),
        ((m + 1 : Nat) : ℝ)⁻¹ • ((List.count i diffs : ℝ) / (diffs.length : ℝ)))
        = ((m + 1 : Nat) : ℝ)⁻¹ := by
      simp only [smul_eq_mul]
      rw [← Finset.mul_sum, hS1, mul_one]
    rw [hL, hR] at hjensen
    have hnm : Real.negMulLog (((m + 1 : Nat) : ℝ)⁻¹)
        = ((m + 1 : Nat) : ℝ)⁻¹ * Real.log ((m + 1 : Nat) : ℝ) := by
      rw [Real.negMulLog, Real.log_inv]
      ring
    rw [hnm] at hjensen
    have hinv : (0:ℝ) < ((m + 1 : Nat) : ℝ)⁻¹ := inv_pos.mpr hk0
    exact (mul_le_mul_left hinv).mp hjensen
  refine ⟨_, rfl, ?_, ?_⟩
  · apply mul_nonneg _ (by norm_num : (0:ℝ) ≤ 100)
    exact div_nonneg (div_nonneg hSf0 (le_of_lt hlog2)) (le_of_lt hmaxE)
  · have hratio : Sf / Real.log 2 / Real.logb 2 ((m + 1 : Nat) : ℝ) ≤ 1 := by
      rw [div_le_one hmaxE]
      rw [← Real.log_div_log]
      exact div_le_div_of_nonneg_right hSfle (le_of_lt hlog2)
    calc Sf / Real.log 2 / Real.logb 2 ((m + 1 : Nat) : ℝ) * 100
        ≤ 1 * 100 := by
          apply mul_le_mul_of_nonneg_right hratio (by norm_num)
      _ = 100 := by norm_num


/-- Witness for C10 (amended): the two-card deck against its reversal. -/
theorem claim10_witness :
    ∃ x : ℝ, calculateEntropy deckAB deckBA = some x ∧ 0 ≤ x ∧ x ≤ 100 :=
  claim10_entropy_in_range deckAB deckBA (by decide)

/-- C10 counterexample: on the empty pair the code does not return a score
at all: `Math.max(...[])` is -Infinity and `new Array(-Infinity + 1)`
throws a RangeError, so `calculateEntropy` is not total (modelled by
`none`). -/
theorem claim10_counterexample : calculateEntropy ([] : List Card) [] = none := rfl

/-! ### Claim C3 -/

theorem jTrace_valid (r : Rand) (hr : validRand r) : ∀ (i k : Nat),
    validTrace (i + 1) (jTrace r k i) = true
  | 0, _ => rfl
  | i + 1, k => by
      simp only [jTrace, validTrace, Bool.and_eq_true, decide_eq_true_eq]
      refine ⟨?_, jTrace_valid r hr i (k + 1)⟩
      unfold randInt
      have h1 := (hr k).2
      have hc : (0:ℚ) < ((i + 2 : Nat) : ℚ) := by positivity
      have hlt : r k * ((i + 2 : Nat) : ℚ) < ((i + 2 : Nat) : ℚ) := by
        calc r k * ((i + 2 : Nat) : ℚ) < 1 * ((i + 2 : Nat) : ℚ) :=
              mul_lt_mul_of_pos_right h1 hc
          _ = ((i + 2 : Nat) : ℚ) := one_mul _
      have hfl : ⌊r k * ((i + 2 : Nat) : ℚ)⌋ < ((i + 2 : Nat) : ℤ) := by
        rw [Int.floor_lt]
        push_cast
        push_cast at hlt
        exact hlt
      omega

theorem eq_dropLast_append (l : List Card) (m : Nat) (a : Card)
    (hlen : l.length = m + 1) (ha : l[m]? = some a) :
    l = l.dropLast ++ [a] := by
  have hne : l ≠ [] := by
    intro h
    subst h
    simp at hlen
  obtain ⟨hmlt, ha'⟩ := List.getElem?_eq_some.mp ha
  have h1 : l.length - 1 < l.length := by omega
  have hm : l.length - 1 = m := by omega
  have hlast : l[l.length - 1] = a := by
    have hq : l[l.length - 1]? = l[m]? := by rw [hm]
    rw [List.getElem?_eq_getElem h1, List.getElem?_eq_getElem hmlt] at hq
    rw [Option.some.inj hq, ha']
  conv_lhs => rw [← List.dropLast_append_getLast hne]
  rw [List.getLast_eq_getElem, hlast]

theorem fyLoopT_cons_decomp (deck : List Card) (n j : Nat) (t : List Nat)
    (hlen : deck.length = n + 2) (hj : j < deck.length)
    (ht : ∀ x ∈ t, x < n + 1) :
    fyLoopT (n + 1) (j :: t) deck
      = fyLoopT n t ((listSwap deck (n + 1) j).dropLast) ++ [deck[j]] := by
  have hdlen : (listSwap deck (n + 1) j).length = n + 2 := by
    rw [listSwap_length, hlen]
  have hget : (listSwap deck (n + 1) j)[n + 1]? = some deck[j] := by
    rw [listSwap_getElem? deck (n + 1) j (n + 1) (by omega) hj]
    simp [List.getElem?_eq_getElem hj]
  have hdecomp : listSwap deck (n + 1) j
      = (listSwap deck (n + 1) j).dropLast ++ [deck[j]] :=
    eq_dropLast_append _ (n + 1) _ hdlen hget
  have hdrop : ((listSwap deck (n + 1) j).dropLast).length = n + 1 := by
    rw [List.length_dropLast, hdlen]
    omega
  show fyLoopT n t (listSwap deck (n + 1) j) = _
  conv_lhs => rw [hdecomp]
  rw [fyLoopT_append n t _ [deck[j]] (by omega) (fun x hx => by
    rw [hdrop]
    exact ht x hx)]

theorem fy_inj : ∀ (n : Nat) (deck : List Card), deck.length = n →
    (deck.map Card.id).Nodup →
    ∀ t₁ t₂, validTrace n t₁ = true → validTrace n t₂ = true →
      fyLoopT (n - 1) t₁ deck = fyLoopT (n - 1) t₂ deck → t₁ = t₂
  | 0, _, _, _, [], [], _, _, _ => rfl
  | 0, _, _, _, _ :: _, _, h₁, _, _ => by simp [validTrace] at h₁
  | 0, _, _, _, [], _ :: _, _, h₂, _ => by simp [validTrace] at h₂
  | 1, _, _, _, [], [], _, _, _ => rfl
  | 1, _, _, _, _ :: _, _, h₁, _, _ => by simp [validTrace] at h₁
  | 1, _, _, _, [], _ :: _, _, h₂, _ => by simp [validTrace] at h₂
  | n + 2, _, _, _, [], _, h₁, _, _ => by simp [validTrace] at h₁
  | n + 2, _, _, _, _ :: _, [], _, h₂, _ => by simp [validTrace] at h₂
  | n + 2, deck, hlen, hnd, j₁ :: t₁, j₂ :: t₂, h₁, h₂, heq => by
      simp only [validTrace, Bool.and_eq_true, decide_eq_true_eq] at h₁ h₂
      obtain ⟨hj₁, hv₁⟩ := h₁
      obtain ⟨hj₂, hv₂⟩ := h₂
      have hj₁' : j₁ < deck.length := by omega
      have hj₂' : j₂ < deck.length := by omega
      have hb₁ : ∀ x ∈ t₁, x < n + 1 := validTrace_lt t₁ (n + 1) hv₁
      have hb₂ : ∀ x ∈ t₂, x < n + 1 := validTrace_lt t₂ (n + 1) hv₂
      rw [show n + 2 - 1 = n + 1 by omega] at heq
      rw [fyLoopT_cons_decomp deck n j₁ t₁ hlen hj₁' hb₁,
        fyLoopT_cons_decomp deck n j₂ t₂ hlen hj₂' hb₂] at heq
      have hlen1 : (fyLoopT n t₁ ((listSwap deck (n + 1) j₁).dropLast)).length
          = (fyLoopT n t₂ ((listSwap deck (n + 1) j₂).dropLast)).length := by
        rw [fyLoopT_length, fyLoopT_length, List.length_dropLast, List.length_dropLast,
          listSwap_length, listSwap_length]
      obtain ⟨hpre, hsuf⟩ := List.append_inj heq hlen1
      have hxeq : deck[j₁] = deck[j₂] := by
        simpa using hsuf
      have hjeq : j₁ = j₂ := by
        have hnd' : deck.Nodup := by
          have := hnd
          exact (List.Nodup.of_map Card.id this)
        have := (List.Nodup.get_inj_iff hnd'
          (i := ⟨j₁, hj₁'⟩) (j := ⟨j₂, hj₂'⟩)).mp (by simpa using hxeq)
        simpa using this
      subst hjeq
      have hndd : (((listSwap deck (n + 1) j₁).dropLast).map Card.id).Nodup := by
        have hperm : List.Perm ((listSwap deck (n + 1) j₁).map Card.id) (deck.map Card.id) :=
          (listSwap_perm deck (n + 1) j₁).map Card.id
        have hnd2 : ((listSwap deck (n + 1) j₁).map Card.id).Nodup :=
          (hperm.nodup_iff).mpr hnd
        rw [List.map_dropLast]
        exact (List.dropLast_sublist _).nodup hnd2
      have hlend : ((listSwap deck (n + 1) j₁).dropLast).length = n + 1 := by
        rw [List.length_dropLast, listSwap_length, hlen]
        omega
      have := fy_inj (n + 1) ((listSwap deck (n + 1) j₁).dropLast) hlend hndd
        t₁ t₂ hv₁ hv₂ (by
          rw [show n + 1 - 1 = n by omega]
          exact hpre)
      rw [this]

theorem fy_surj : ∀ (n : Nat) (deck : List Card), deck.length = n →
    (deck.map Card.id).Nodup →
    ∀ l', List.Perm l' deck →
      ∃ t, validTrace n t = true ∧ fyLoopT (n - 1) t deck = l'
  | 0, deck, hlen, _, l', hperm => by
      have hdeck : deck = [] := List.length_eq_zero.mp hlen
      subst hdeck
      exact ⟨[], rfl, (List.perm_nil.mp hperm).symm⟩
  | 1, deck, hlen, _, l', hperm => by
      match deck, hlen with
      | [c], _ =>
          exact ⟨[], rfl, (List.perm_singleton.mp hperm).symm⟩
  | n + 2, deck, hlen, hnd, l', hperm => by
      have hl'len : l'.length = n + 2 := hperm.length_eq.trans hlen
      have hl'ne : l' ≠ [] := by
        intro h
        rw [h] at hl'len
        simp at hl'len
      have hx : l'.getLast hl'ne ∈ deck := hperm.mem_iff.mp (List.getLast_mem hl'ne)
      obtain ⟨⟨j, hj⟩, hji⟩ := List.mem_iff_get.mp hx
      have hjget : deck[j] = l'.getLast hl'ne := by simpa using hji
      have hdlen : (listSwap deck (n + 1) j).length = n + 2 := by
        rw [listSwap_length, hlen]
      have hget : (listSwap deck (n + 1) j)[n + 1]? = some deck[j] := by
        rw [listSwap_getElem? deck (n + 1) j (n + 1) (by omega) hj]
        simp [List.getElem?_eq_getElem hj]
      have hdecomp : listSwap deck (n + 1) j
          = (listSwap deck (n + 1) j).dropLast ++ [deck[j]] :=
        eq_dropLast_append _ (n + 1) _ hdlen hget
      have hl'decomp : l' = l'.dropLast ++ [deck[j]] := by
        rw [hjget]
        exact (List.dropLast_append_getLast hl'ne).symm
      have hperm' : List.Perm (l'.dropLast) ((listSwap deck (n + 1) j).dropLast) := by
        apply (List.perm_append_right_iff [deck[j]]).mp
        rw [← hl'decomp, ← hdecomp]
        exact hperm.trans (listSwap_perm deck (n + 1) j).symm
      have hndd : (((listSwap deck (n + 1) j).dropLast).map Card.id).Nodup := by
        have hpermn : List.Perm ((listSwap deck (n + 1) j).map Card.id) (deck.map Card.id) :=
          (listSwap_perm deck (n + 1) j).map Card.id
        rw [List.map_dropLast]
        exact (List.dropLast_sublist _).nodup ((hpermn.nodup_iff).mpr hnd)
      have hlend : ((listSwap deck (n + 1) j).dropLast).length = n + 1 := by
        rw [List.length_dropLast, hdlen]
        omega
      obtain ⟨t, htv, hteq⟩ := fy_surj (n + 1) ((listSwap deck (n + 1) j).dropLast)
        hlend hndd (l'.dropLast) hperm'
      refine ⟨j :: t, ?_, ?_⟩
      · simp only [validTrace, Bool.and_eq_true, decide_eq_true_eq]
        exact ⟨by omega, htv⟩
      · rw [show n + 2 - 1 = n + 1 by omega]
        rw [fyLoopT_cons_decomp deck n j t hlen hj (validTrace_lt t (n + 1) htv)]
        rw [show n + 1 - 1 = n by omega] at hteq
        rw [hteq, ← hl'decomp]

/-- C3: `fisherYatesShuffle` iterates `i` from the last index down to 1,
drawing `j = floor(random*(i+1))` in `[0, i]` and swapping positions `i`
and `j` (the first two conjuncts tie the implementation to the trace-level
loop `fyLoopT` and show every real random source yields a valid trace);
and the map from valid draw traces to orderings is a bijection onto the
permutations of the input, so independent uniform draws make all N!
orderings equally likely. -/
theorem claim3_fisherYates_bijection (deck : List Card) (hN : 1 ≤ deck.length)
    (hnd : (deck.map Card.id).Nodup) :
    (∀ r : Rand, fisherYatesShuffle deck r
        = renumber (fyLoopT (deck.length - 1) (jTrace r 0 (deck.length - 1)) deck))
    ∧ (∀ r : Rand, validRand r →
        validTrace deck.length (jTrace r 0 (deck.length - 1)) = true)
    ∧ Set.BijOn (fun t => fyLoopT (deck.length - 1) t deck)
        {t : List Nat | validTrace deck.length t = true}
        {l : List Card | List.Perm l deck} := by
  refine ⟨fun r => ?_, fun r hr => ?_, fun t ht => ?_, ?_, fun l' hl' => ?_⟩
  · rw [fisherYatesShuffle, fyLoop_eq_fyLoopT]
  · have := jTrace_valid r hr (deck.length - 1) 0
    rwa [Nat.sub_add_cancel hN] at this
  · exact fyLoopT_perm _ _ _
  · intro t₁ h₁ t₂ h₂ heq
    exact fy_inj deck.length deck rfl hnd t₁ t₂ h₁ h₂ heq
  · obtain ⟨t, htv, hteq⟩ := fy_surj deck.length deck rfl hnd l' hl'
    exact ⟨t, htv, hteq⟩

/-- Witness for C3: the bijection at the concrete two-card deck. -/
theorem claim3_witness :
    (∀ r : Rand, fisherYatesShuffle deckAB r
        = renumber (fyLoopT (deckAB.length - 1) (jTrace r 0 (deckAB.length - 1)) deckAB))
    ∧ (∀ r : Rand, validRand r →
        validTrace deckAB.length (jTrace r 0 (deckAB.length - 1)) = true)
    ∧ Set.BijOn (fun t => fyLoopT (deckAB.length - 1) t deckAB)
        {t : List Nat | validTrace deckAB.length t = true}
        {l : List Card | List.Perm l deckAB} :=
  claim3_fisherYates_bijection deckAB (by decide) (by decide)

end ShuffleDeck